import Mathlib

/-!
Verification of the zkcash shielded-pool core (`programs/zkcash`).

The repository ships `lib.rs` (the `transact` state machine, account
constraints and the error taxonomy) together with its unit tests; the
helper modules `utils.rs`, `merkle_tree.rs` and `groth16.rs` are declared
but their sources are not present, so those helpers are modelled from the
specification (each such definition carries a `Modelled from the spec:`
doc comment).  Byte strings are embedded as `List Nat`, with each entry a
byte value; machine integers are embedded as `Nat`/`Int` with explicit
bounds checks where the source performs checked arithmetic.
-/

namespace Zkcash

/-- A byte string: a list of byte values. -/
abbrev Bytes := List Nat

deriving instance DecidableEq for Except

/-- The 32-byte all-zero value `[0u8; 32]`. -/
def zero32 : Bytes := List.replicate 32 0

/-- Big-endian interpretation of a byte string as a natural number. -/
def beBytesToNat (b : Bytes) : Nat := b.foldl (fun acc x => acc * 256 + x) 0

/-- Little-endian interpretation of a byte string as a natural number. -/
def leBytesToNat (b : Bytes) : Nat := b.foldr (fun x acc => acc * 256 + x) 0

/-- The BN254 scalar-field modulus (the order of `Fr`). -/
def FrP : Nat := 21888242871839275222246405745257275088548364400416034343698204186575808495617

/-- Modelled from the spec: `fr_from_be(bytes) → Fr`, reduction of the
big-endian value modulo the field order (`Fr::from_be_bytes_mod_order`).
The element is represented by its canonical natural representative. -/
def fr_from_be (b : Bytes) : Nat := beBytesToNat b % FrP

/-- Modelled from the spec: `fr_from_le(bytes) → Fr`, reduction of the
little-endian value modulo the field order (`Fr::from_le_bytes_mod_order`). -/
def fr_from_le (b : Bytes) : Nat := leBytesToNat b % FrP

/-- Addition in `Fr` on canonical representatives. -/
def frAdd (a b : Nat) : Nat := (a + b) % FrP

/-- Subtraction in `Fr` on canonical representatives. -/
def frSub (a b : Nat) : Nat := (a + (FrP - b % FrP)) % FrP

/-- Negation in `Fr` on canonical representatives. -/
def frNeg (a : Nat) : Nat := (FrP - a % FrP) % FrP

/-- The value `i64::MIN`. -/
def i64Min : Int := -(2 ^ 63)

/-- The error taxonomy of `lib.rs` (`ErrorCode`), extended with the two
ledger-level failures the program delegates to the runtime: PDA `init` on
an already-existing account, and a failed system-program transfer. -/
inductive ErrorCode where
  | Unauthorized
  | ExtDataHashMismatch
  | UnknownRoot
  | InvalidPublicAmountData
  | InsufficientFundsForWithdrawal
  | InsufficientFundsForFee
  | InvalidProof
  | InvalidFee
  | InvalidExtAmount
  | PublicAmountCalculationError
  | ArithmeticOverflow
  | DepositLimitExceeded
  | InvalidFeeRate
  | InvalidFeeRecipient
  | InvalidFeeAmount
  | RecipientMismatch
  | MerkleTreeFull
  | AccountAlreadyInUse
  | SystemTransferFailed
deriving DecidableEq

/-- Modelled from the spec: `utils::check_public_amount`.  For
`ext_amount ≥ 0` it requires `fee < ext_amount` (strict) and
`P = Fr(ext_amount_u64) − Fr(fee)`; for `ext_amount < 0` it rejects
`i64::MIN` and otherwise requires `P = −(Fr(|ext_amount|) + Fr(fee))`,
where the supplied `public_amount` bytes are read big-endian into `Fr`. -/
def check_public_amount (ext_amount : Int) (fee : Nat) (public_amount : Bytes) : Bool :=
  if 0 ≤ ext_amount then
    decide ((fee : Int) < ext_amount) &&
      (fr_from_be public_amount == frSub (ext_amount.toNat % FrP) (fee % FrP))
  else if ext_amount = i64Min then
    false
  else
    fr_from_be public_amount == frNeg (frAdd (ext_amount.natAbs % FrP) (fee % FrP))

example : check_public_amount 100 10 (List.replicate 31 0 ++ [90]) = true := by decide

example : check_public_amount 100 100 (List.replicate 32 0) = false := by decide

/-- C3: for every i64 `ext_amount`, u64 `fee` and byte string `public_amount`,
`check_public_amount` behaves as specified: for `ext_amount ≥ 0` it returns
`true` iff `fee < ext_amount` strictly and the big-endian field
interpretation of `public_amount` is congruent to `ext_amount − fee` modulo
the field order; for `ext_amount < 0` it returns `false` at `i64::MIN` and
otherwise returns `true` iff that interpretation is congruent to
`−(|ext_amount| + fee)`. -/
theorem c3_check_public_amount_spec (ext : Int) (fee : Nat) (pub : Bytes)
    (hlo : i64Min ≤ ext) (hhi : ext < 2 ^ 63) (hfee : fee < 2 ^ 64) :
    check_public_amount ext fee pub = true ↔
      (if 0 ≤ ext then
        (fee : Int) < ext ∧
          (beBytesToNat pub : Int) ≡ ext - (fee : Int) [ZMOD (FrP : Int)]
      else
        ext ≠ i64Min ∧
          (beBytesToNat pub : Int) ≡ -((ext.natAbs : Int) + (fee : Int)) [ZMOD (FrP : Int)]) := by
  by_cases hpos : 0 ≤ ext
  · have hext : ((ext.toNat : Nat) : Int) = ext := Int.toNat_of_nonneg hpos
    simp only [check_public_amount, if_pos hpos, Bool.and_eq_true, decide_eq_true_iff,
      beq_iff_eq, fr_from_be, frSub]
    refine and_congr Iff.rfl ?_
    simp only [Int.ModEq]
    rw [← hext]
    generalize beBytesToNat pub = A
    generalize ext.toNat = E
    unfold FrP
    omega
  · by_cases hmin : ext = i64Min
    · subst hmin
      norm_num [check_public_amount, i64Min]
    · simp only [check_public_amount, if_neg hpos, if_neg hmin, beq_iff_eq, fr_from_be,
        frNeg, frAdd]
      rw [and_iff_right hmin]
      simp only [Int.ModEq]
      generalize beBytesToNat pub = A
      generalize ext.natAbs = N
      unfold FrP
      omega

/-- Witness for C3: the spec scenario `check(ext_amount=100, fee=10,
P = Fr(90).to_be()) = true` obtained through `c3_check_public_amount_spec`. -/
theorem c3_check_public_amount_witness :
    check_public_amount 100 10 (List.replicate 31 0 ++ [90]) = true ↔
      (if (0 : Int) ≤ 100 then
        ((10 : Nat) : Int) < 100 ∧
          (beBytesToNat (List.replicate 31 0 ++ [90]) : Int) ≡
            100 - ((10 : Nat) : Int) [ZMOD (FrP : Int)]
      else
        (100 : Int) ≠ i64Min ∧
          (beBytesToNat (List.replicate 31 0 ++ [90]) : Int) ≡
            -(((100 : Int).natAbs : Int) + ((10 : Nat) : Int)) [ZMOD (FrP : Int)]) :=
  c3_check_public_amount_spec 100 10 (List.replicate 31 0 ++ [90])
    (by decide) (by decide) (by decide)

/-- Modelled from the spec: `utils::validate_fee`.  With
`rate = deposit_fee_rate` for `ext_amount ≥ 0` and `withdrawal_fee_rate`
otherwise, it computes `expected = |ext_amount| · rate / 10000` and
`minimum = expected · (10000 − fee_error_margin) / 10000` with checked
u64 arithmetic and integer floor division, requires
`provided_fee ≥ minimum`, passes unconditionally for `ext_amount = 0`,
and fails with `ArithmeticOverflow` on `i64::MIN` or any overflow and
with `InvalidFeeAmount` on an undersized fee. -/
def validate_fee (ext_amount : Int)
    (provided_fee deposit_fee_rate withdrawal_fee_rate fee_error_margin : Nat) :
    Except ErrorCode Unit :=
  if ext_amount = 0 then .ok ()
  else if ext_amount = i64Min then .error .ArithmeticOverflow
  else
    let rate := if 0 ≤ ext_amount then deposit_fee_rate else withdrawal_fee_rate
    let amt := ext_amount.natAbs
    if 2 ^ 64 ≤ amt * rate then .error .ArithmeticOverflow
    else
      let expected := amt * rate / 10000
      if 2 ^ 64 ≤ expected * (10000 - fee_error_margin) then .error .ArithmeticOverflow
      else
        let minimum := expected * (10000 - fee_error_margin) / 10000
        if provided_fee < minimum then .error .InvalidFeeAmount
        else .ok ()

/-- C5: `validate_fee` succeeds exactly when `ext_amount = 0` or no checked
step overflows and the provided fee reaches
`minimum = (|ext| · rate / 10000) · (10000 − margin) / 10000` (floor
division, rate chosen by the sign of `ext_amount`); `i64::MIN` always
errors; and the two concrete scenarios of the spec error as claimed. -/
theorem c5_validate_fee_spec (ext : Int) (fee d w m : Nat)
    (hlo : i64Min ≤ ext) (hhi : ext < 2 ^ 63) (hfee : fee < 2 ^ 64) (hm : m ≤ 10000) :
    (validate_fee ext fee d w m = .ok () ↔
      (ext = 0 ∨ (ext ≠ i64Min ∧
        ext.natAbs * (if 0 ≤ ext then d else w) < 2 ^ 64 ∧
        ext.natAbs * (if 0 ≤ ext then d else w) / 10000 * (10000 - m) < 2 ^ 64 ∧
        ext.natAbs * (if 0 ≤ ext then d else w) / 10000 * (10000 - m) / 10000 ≤ fee))) ∧
    (ext = i64Min → validate_fee ext fee d w m = .error .ArithmeticOverflow) ∧
    validate_fee (-1000) 8 0 100 500 = .error .InvalidFeeAmount ∧
    validate_fee (2 ^ 63 - 1) 0 10000 25 0 = .error .ArithmeticOverflow := by
  refine ⟨?_, ?_, by rfl, by rfl⟩
  · unfold validate_fee
    by_cases h1 : ext = 0
    · simp [h1]
    · by_cases h2 : ext = i64Min
      · simp [h1, h2]
      · simp only [if_neg h1, if_neg h2]
        by_cases h3 : 2 ^ 64 ≤ ext.natAbs * (if 0 ≤ ext then d else w)
        · simp only [if_pos h3]
          refine iff_of_false (fun h => by cases h) ?_
          rintro (rfl | ⟨-, hlt, -, -⟩)
          · exact h1 rfl
          · omega
        · simp only [if_neg h3]
          by_cases h4 : 2 ^ 64 ≤
              ext.natAbs * (if 0 ≤ ext then d else w) / 10000 * (10000 - m)
          · simp only [if_pos h4]
            refine iff_of_false (fun h => by cases h) ?_
            rintro (rfl | ⟨-, -, hlt, -⟩)
            · exact h1 rfl
            · omega
          · simp only [if_neg h4]
            by_cases h5 : fee <
                ext.natAbs * (if 0 ≤ ext then d else w) / 10000 * (10000 - m) / 10000
            · simp only [if_pos h5]
              refine iff_of_false (fun h => by cases h) ?_
              rintro (rfl | ⟨-, -, -, hle⟩)
              · exact h1 rfl
              · omega
            · simp only [if_neg h5]
              exact ⟨fun _ => Or.inr ⟨h2, by omega, by omega, by omega⟩, fun _ => trivial⟩
  · intro hmin
    subst hmin
    rfl

/-- Witness for C5: the spec scenario `validate_fee(ext=1000, fee=1,
d_rate=0, w_rate=25, margin=500) = ok`, obtained through
`c5_validate_fee_spec`. -/
theorem c5_validate_fee_witness :
    (validate_fee 1000 1 0 25 500 = .ok () ↔
      ((1000 : Int) = 0 ∨ ((1000 : Int) ≠ i64Min ∧
        (1000 : Int).natAbs * (if (0 : Int) ≤ 1000 then 0 else 25) < 2 ^ 64 ∧
        (1000 : Int).natAbs * (if (0 : Int) ≤ 1000 then 0 else 25) / 10000 * (10000 - 500) < 2 ^ 64 ∧
        (1000 : Int).natAbs * (if (0 : Int) ≤ 1000 then 0 else 25) / 10000 * (10000 - 500) / 10000 ≤ 1))) ∧
    ((1000 : Int) = i64Min → validate_fee 1000 1 0 25 500 = .error .ArithmeticOverflow) ∧
    validate_fee (-1000) 8 0 100 500 = .error .InvalidFeeAmount ∧
    validate_fee (2 ^ 63 - 1) 0 10000 25 0 = .error .ArithmeticOverflow :=
  c5_validate_fee_spec 1000 1 0 25 500 (by decide) (by decide) (by decide) (by decide)

/-- The mutable Merkle-tree account state (`MerkleTreeAccount` in `lib.rs`);
the `bump`/padding bookkeeping fields are omitted. -/
structure MerkleTreeAccount where
  authority : Bytes
  nextIndex : Nat
  subtrees : List Bytes
  root : Bytes
  rootHistory : List Bytes
  rootIndex : Nat
  maxDepositAmount : Nat
  height : Nat
  rootHistorySize : Nat
deriving DecidableEq

/-- Modelled from the spec: the zero-hash ladder `Z[0..]`, with `Z[0]` the
canonical empty leaf and `Z[k+1] = H(Z[k], Z[k])`.  The hasher (Poseidon)
is an external capability, so the tree operations below receive the
precomputed table `zeros` (`Poseidon::zero_bytes()` in the source) as a
parameter. -/
def zeroLadder (h : Bytes → Bytes → Bytes) (zeroLeaf : Bytes) : Nat → Bytes
  | 0 => zeroLeaf
  | k + 1 => h (zeroLadder h zeroLeaf k) (zeroLadder h zeroLeaf k)

/-- Modelled from the spec: `MerkleTree::initialize` — sets `next_index = 0`
and `root_index = 0`, zeroes the frontier, sets `root = Z[height]` and
writes it into `root_history[0]`.  The account arrives zero-initialized
from the runtime. -/
def initTree (zeros : Nat → Bytes) (s : MerkleTreeAccount) : MerkleTreeAccount :=
  { s with
    nextIndex := 0
    rootIndex := 0
    subtrees := List.replicate s.height zero32
    root := zeros s.height
    rootHistory := s.rootHistory.set 0 (zeros s.height) }

/-- One level of the append walk: at level `k`, an index with bit `k`
clear becomes a left child (cache the running node in the frontier and
combine with `Z[k]`), an index with bit `k` set is a right child (combine
the cached frontier node with the running node); the sibling used is
recorded on the authentication path. -/
def appendStep (h : Bytes → Bytes → Bytes) (zeros : Nat → Bytes) (i : Nat)
    (acc : Bytes × List Bytes × List Bytes) (k : Nat) : Bytes × List Bytes × List Bytes :=
  let cur := acc.1
  let sub := acc.2.1
  let prf := acc.2.2
  if i / 2 ^ k % 2 = 0 then
    (h cur (zeros k), sub.set k cur, prf ++ [zeros k])
  else
    (h (sub.getD k zero32) cur, sub, prf ++ [sub.getD k zero32])

/-- The full-fold part of `append`: running node, updated frontier and
authentication path after walking all `height` levels. -/
def appendRes (h : Bytes → Bytes → Bytes) (zeros : Nat → Bytes) (leaf : Bytes)
    (s : MerkleTreeAccount) : Bytes × List Bytes × List Bytes :=
  (List.range s.height).foldl (appendStep h zeros s.nextIndex) (leaf, s.subtrees, [])

/-- The mutated account an in-capacity `append` produces: new root and
frontier from the fold, the root written into the ring buffer at
`(root_index + 1) % root_history_size`, and `next_index` incremented. -/
def appendOkState (h : Bytes → Bytes → Bytes) (zeros : Nat → Bytes) (leaf : Bytes)
    (s : MerkleTreeAccount) : MerkleTreeAccount :=
  let res := appendRes h zeros leaf s
  let ri := (s.rootIndex + 1) % s.rootHistorySize
  { s with
    root := res.1
    subtrees := res.2.1
    rootHistory := s.rootHistory.set ri res.1
    rootIndex := ri
    nextIndex := s.nextIndex + 1 }

/-- Modelled from the spec: `MerkleTree::append` — requires
`next_index < 2^height` (else `MerkleTreeFull`), folds the leaf up all
`height` levels against the cached frontier and the zero ladder according
to the bits of `next_index`, then stores the new root into the ring
buffer at position `(root_index + 1) % root_history_size` (the write
convention the unit tests exercise: a fresh root never evicts the
previous root before the buffer wraps), advances `root_index`, increments
`next_index` and returns the authentication path. -/
def append (h : Bytes → Bytes → Bytes) (zeros : Nat → Bytes) (leaf : Bytes)
    (s : MerkleTreeAccount) : Except ErrorCode (List Bytes × MerkleTreeAccount) :=
  if s.nextIndex < 2 ^ s.height then
    .ok ((appendRes h zeros leaf s).2.2, appendOkState h zeros leaf s)
  else .error .MerkleTreeFull

/-- Modelled from the spec: `MerkleTree::is_known_root` — false for the
all-zero candidate, otherwise true iff the candidate equals one of the
`root_history_size` ring-buffer entries (the scan order of the source is
immaterial to the result). -/
def is_known_root (s : MerkleTreeAccount) (candidate : Bytes) : Bool :=
  if candidate == zero32 then false
  else (List.range s.rootHistorySize).any fun i => s.rootHistory.getD i zero32 == candidate

/-- `update_deposit_limit` from `lib.rs`: gated by the `has_one = authority`
constraint of `UpdateDepositLimit`, it sets `max_deposit_amount` to the
new limit and touches nothing else. -/
def update_deposit_limit (s : MerkleTreeAccount) (caller : Bytes) (newLimit : Nat) :
    Except ErrorCode MerkleTreeAccount :=
  if caller = s.authority then .ok { s with maxDepositAmount := newLimit }
  else .error .Unauthorized

/-- A fresh account of the given geometry as the runtime creates it
(zero-initialized), after `MerkleTree::initialize` has run. -/
def freshTree (zeros : Nat → Bytes) (height histSize : Nat) : MerkleTreeAccount :=
  initTree zeros
    { authority := zero32
      nextIndex := 0
      subtrees := List.replicate height zero32
      root := zero32
      rootHistory := List.replicate histSize zero32
      rootIndex := 0
      maxDepositAmount := 0
      height := height
      rootHistorySize := histSize }

/-- The state after `n` appends of `leaves 0, …, leaves (n−1)` starting
from `s0`; a failed append leaves the state unchanged (the containing
transaction aborts). -/
def iterAppend (h : Bytes → Bytes → Bytes) (zeros : Nat → Bytes) (leaves : Nat → Bytes)
    (s0 : MerkleTreeAccount) : Nat → MerkleTreeAccount
  | 0 => s0
  | n + 1 =>
    let s := iterAppend h zeros leaves s0 n
    match append h zeros (leaves n) s with
    | .ok r => r.2
    | .error _ => s

/-- The state reached after `n` appends from a fresh tree. -/
def treeStateAt (h : Bytes → Bytes → Bytes) (zeros : Nat → Bytes) (leaves : Nat → Bytes)
    (height histSize n : Nat) : MerkleTreeAccount :=
  iterAppend h zeros leaves (freshTree zeros height histSize) n

lemma getD_set_self (l : List Bytes) (i : Nat) (v d : Bytes) (h : i < l.length) :
    (l.set i v).getD i d = v := by
  simp [List.getD, List.getElem?_set, h]

lemma getD_set_ne (l : List Bytes) (i j : Nat) (v d : Bytes) (h : i ≠ j) :
    (l.set i v).getD j d = l.getD j d := by
  simp [List.getD, List.getElem?_set, h]

lemma mod_ne_mod_of_window (hs k j : Nat) (hk : k < j) (hj : j < k + hs) :
    j % hs ≠ k % hs := by
  intro he
  have hdvd : hs ∣ j - k := (Nat.modEq_iff_dvd' (Nat.le_of_lt hk)).mp he.symm
  have hle : hs ≤ j - k := Nat.le_of_dvd (by omega) hdvd
  omega

lemma append_of_lt (h : Bytes → Bytes → Bytes) (zeros : Nat → Bytes) (leaf : Bytes)
    (s : MerkleTreeAccount) (hlt : s.nextIndex < 2 ^ s.height) :
    append h zeros leaf s = .ok ((appendRes h zeros leaf s).2.2, appendOkState h zeros leaf s) := by
  simp [append, hlt]

lemma append_of_ge (h : Bytes → Bytes → Bytes) (zeros : Nat → Bytes) (leaf : Bytes)
    (s : MerkleTreeAccount) (hge : ¬ s.nextIndex < 2 ^ s.height) :
    append h zeros leaf s = .error .MerkleTreeFull := by
  simp [append, hge]

lemma iterAppend_succ_of_lt (h : Bytes → Bytes → Bytes) (zeros leaves : Nat → Bytes)
    (s0 : MerkleTreeAccount) (n : Nat)
    (hlt : (iterAppend h zeros leaves s0 n).nextIndex < 2 ^ (iterAppend h zeros leaves s0 n).height) :
    iterAppend h zeros leaves s0 (n + 1) =
      appendOkState h zeros (leaves n) (iterAppend h zeros leaves s0 n) := by
  simp [iterAppend, append_of_lt _ _ _ _ hlt]

lemma iterAppend_succ_of_ge (h : Bytes → Bytes → Bytes) (zeros leaves : Nat → Bytes)
    (s0 : MerkleTreeAccount) (n : Nat)
    (hge : ¬ (iterAppend h zeros leaves s0 n).nextIndex < 2 ^ (iterAppend h zeros leaves s0 n).height) :
    iterAppend h zeros leaves s0 (n + 1) = iterAppend h zeros leaves s0 n := by
  simp [iterAppend, append_of_ge _ _ _ _ hge]

/-- Geometry of the reachable states: the fixed fields are preserved, the
leaf counter equals the number of appends, and the ring-buffer cursor is
the append count modulo the history size. -/
lemma treeStateAt_geom (h : Bytes → Bytes → Bytes) (zeros leaves : Nat → Bytes)
    (height hs : Nat) (hhs : 0 < hs) :
    ∀ n, n ≤ 2 ^ height →
      (treeStateAt h zeros leaves height hs n).height = height ∧
      (treeStateAt h zeros leaves height hs n).rootHistorySize = hs ∧
      (treeStateAt h zeros leaves height hs n).rootHistory.length = hs ∧
      (treeStateAt h zeros leaves height hs n).nextIndex = n ∧
      (treeStateAt h zeros leaves height hs n).rootIndex = n % hs := by
  intro n
  induction n with
  | zero =>
    intro _
    refine ⟨rfl, rfl, ?_, rfl, by simp [treeStateAt, iterAppend, freshTree, initTree]⟩
    simp [treeStateAt, iterAppend, freshTree, initTree]
  | succ n ih =>
    intro hn
    obtain ⟨g1, g2, g3, g4, g5⟩ := ih (by omega)
    have hlt : (treeStateAt h zeros leaves height hs n).nextIndex <
        2 ^ (treeStateAt h zeros leaves height hs n).height := by
      rw [g1, g4]; omega
    have hstep := iterAppend_succ_of_lt h zeros leaves (freshTree zeros height hs) n hlt
    rw [treeStateAt] at *
    rw [hstep]
    refine ⟨g1, g2, ?_, by rw [appendOkState]; simp [g4], ?_⟩
    · rw [appendOkState]
      simpa using g3
    · simp only [appendOkState, g5, g2]
      exact Nat.mod_add_mod n hs 1

/-- The root produced at step `k` sits in ring-buffer slot `k % hs`
immediately after step `k`. -/
lemma slot_write (h : Bytes → Bytes → Bytes) (zeros leaves : Nat → Bytes)
    (height hs : Nat) (hhs : 0 < hs) (k : Nat) (hk : k ≤ 2 ^ height) :
    (treeStateAt h zeros leaves height hs k).rootHistory.getD (k % hs) zero32 =
      (treeStateAt h zeros leaves height hs k).root := by
  cases k with
  | zero =>
    simp only [treeStateAt, iterAppend, freshTree, initTree, Nat.zero_mod]
    exact getD_set_self _ _ _ _ (by simpa using hhs)
  | succ n =>
    obtain ⟨g1, g2, g3, g4, g5⟩ :=
      treeStateAt_geom h zeros leaves height hs hhs n (by omega)
    have hlt : (treeStateAt h zeros leaves height hs n).nextIndex <
        2 ^ (treeStateAt h zeros leaves height hs n).height := by
      rw [g1, g4]; omega
    have hstep := iterAppend_succ_of_lt h zeros leaves (freshTree zeros height hs) n hlt
    rw [treeStateAt] at *
    rw [hstep]
    simp only [appendOkState, g5, g2]
    rw [Nat.mod_add_mod]
    refine getD_set_self _ _ _ _ ?_
    rw [g3]
    exact Nat.mod_lt _ hhs

/-- The root produced at step `k` is still in slot `k % hs` for the next
`hs − 1` appends. -/
lemma slot_preserve (h : Bytes → Bytes → Bytes) (zeros leaves : Nat → Bytes)
    (height hs : Nat) (hhs : 0 < hs) (k : Nat) :
    ∀ m, k ≤ m → m < k + hs → m ≤ 2 ^ height →
      (treeStateAt h zeros leaves height hs m).rootHistory.getD (k % hs) zero32 =
        (treeStateAt h zeros leaves height hs k).root := by
  intro m
  induction m with
  | zero =>
    intro h1 _ h3
    have hk0 : k = 0 := by omega
    subst hk0
    exact slot_write h zeros leaves height hs hhs 0 h3
  | succ m ih =>
    intro h1 h2 h3
    by_cases hkm : k = m + 1
    · subst hkm
      exact slot_write h zeros leaves height hs hhs (m + 1) h3
    · obtain ⟨g1, g2, g3, g4, g5⟩ :=
        treeStateAt_geom h zeros leaves height hs hhs m (by omega)
      have hlt : (treeStateAt h zeros leaves height hs m).nextIndex <
          2 ^ (treeStateAt h zeros leaves height hs m).height := by
        rw [g1, g4]; omega
      have hstep := iterAppend_succ_of_lt h zeros leaves (freshTree zeros height hs) m hlt
      rw [treeStateAt] at *
      rw [hstep]
      simp only [appendOkState, g5, g2]
      rw [Nat.mod_add_mod]
      rw [getD_set_ne _ _ _ _ _ (mod_ne_mod_of_window hs k (m + 1) (by omega) (by omega))]
      exact ih (by omega) (by omega) (by omega)

/-- Once at least `hs` appends have happened, every ring-buffer slot holds
the root of one of the last `hs` steps. -/
lemma slot_covered (h : Bytes → Bytes → Bytes) (zeros leaves : Nat → Bytes)
    (height hs : Nat) (hhs : 0 < hs) (m : Nat) (hm : hs ≤ m) (hcap : m ≤ 2 ^ height) :
    ∀ i, i < hs → ∃ j, m - hs < j ∧ j ≤ m ∧
      (treeStateAt h zeros leaves height hs m).rootHistory.getD i zero32 =
        (treeStateAt h zeros leaves height hs j).root := by
  intro i hi
  obtain ⟨q, r, hqr, hr⟩ : ∃ q r, hs * q + r = m - i ∧ r < hs :=
    ⟨(m - i) / hs, (m - i) % hs, Nat.div_add_mod _ _, Nat.mod_lt _ hhs⟩
  refine ⟨m - r, by omega, by omega, ?_⟩
  have hj : (m - r) % hs = i := by
    have hji : m - r = i + hs * q := by omega
    rw [hji, Nat.add_mul_mod_self_left, Nat.mod_eq_of_lt hi]
  rw [← hj]
  exact slot_preserve h zeros leaves height hs hhs (m - r) m (by omega) (by omega) hcap

/-- `is_known_root` is membership of a nonzero candidate among the first
`root_history_size` ring-buffer entries. -/
lemma is_known_root_iff (s : MerkleTreeAccount) (c : Bytes) :
    is_known_root s c = true ↔
      c ≠ zero32 ∧ ∃ i, i < s.rootHistorySize ∧ s.rootHistory.getD i zero32 = c := by
  unfold is_known_root
  by_cases hz : c = zero32
  · simp [hz]
  · have hbz : (c == zero32) = false := by simp [hz]
    rw [hbz]
    simp only [Bool.false_eq_true, if_false, List.any_eq_true, List.mem_range, beq_iff_eq]
    constructor
    · rintro ⟨i, hi, he⟩
      exact ⟨hz, i, hi, he⟩
    · rintro ⟨-, i, hi, he⟩
      exact ⟨i, hi, he⟩

/-- Once the tree is full, further append attempts leave the state frozen. -/
lemma treeStateAt_stuck (h : Bytes → Bytes → Bytes) (zeros leaves : Nat → Bytes)
    (height hs : Nat) (hhs : 0 < hs) :
    ∀ n, 2 ^ height ≤ n →
      treeStateAt h zeros leaves height hs n = treeStateAt h zeros leaves height hs (2 ^ height) := by
  intro n
  induction n with
  | zero =>
    intro h0
    have : 0 < 2 ^ height := Nat.pos_pow_of_pos height (by omega)
    omega
  | succ n ih =>
    intro hge
    by_cases hn : 2 ^ height ≤ n
    · have hfix := ih hn
      obtain ⟨g1, -, -, g4, -⟩ :=
        treeStateAt_geom h zeros leaves height hs hhs (2 ^ height) (le_refl _)
      have hge2 : ¬ (treeStateAt h zeros leaves height hs n).nextIndex <
          2 ^ (treeStateAt h zeros leaves height hs n).height := by
        rw [hfix, g1, g4]; omega
      rw [treeStateAt] at *
      rw [iterAppend_succ_of_ge h zeros leaves (freshTree zeros height hs) n hge2]
      exact hfix
    · have : n + 1 = 2 ^ height := by omega
      rw [this]

/-- C8: in every state reachable by appends from a fresh tree, the root
written at step `k` is still recognized by `is_known_root` for the next
`HISTORY − 1` appends (provided it is not the zero value, which the
lookup rejects by design), and is no longer recognized once `HISTORY`
further appends have occurred (provided none of those later roots repeats
it), `HISTORY` being the state's `root_history_size`. -/
theorem c8_root_history_window (h : Bytes → Bytes → Bytes) (zeros leaves : Nat → Bytes)
    (height hs : Nat) (hhs : 0 < hs) :
    (∀ k m, k ≤ m → m < k + hs → m ≤ 2 ^ height →
      (treeStateAt h zeros leaves height hs k).root ≠ zero32 →
      is_known_root (treeStateAt h zeros leaves height hs m)
        ((treeStateAt h zeros leaves height hs k).root) = true) ∧
    (∀ k m, k + hs ≤ m → m ≤ 2 ^ height →
      (∀ j, k < j → j ≤ m →
        (treeStateAt h zeros leaves height hs j).root ≠
          (treeStateAt h zeros leaves height hs k).root) →
      is_known_root (treeStateAt h zeros leaves height hs m)
        ((treeStateAt h zeros leaves height hs k).root) = false) := by
  constructor
  · intro k m h1 h2 h3 hnz
    rw [is_known_root_iff]
    refine ⟨hnz, k % hs, ?_, slot_preserve h zeros leaves height hs hhs k m h1 h2 h3⟩
    rw [(treeStateAt_geom h zeros leaves height hs hhs m h3).2.1]
    exact Nat.mod_lt _ hhs
  · intro k m h1 h2 hdist
    rw [Bool.eq_false_iff]
    intro htrue
    obtain ⟨hnz, i, hi, hslot⟩ := (is_known_root_iff _ _).mp htrue
    rw [(treeStateAt_geom h zeros leaves height hs hhs m h2).2.1] at hi
    obtain ⟨j, hj1, hj2, hj3⟩ :=
      slot_covered h zeros leaves height hs hhs m (by omega) h2 i hi
    rw [hj3] at hslot
    exact hdist j (by omega) hj2 hslot

/-- Hash and leaf data used to instantiate the generic tree theorems on a
concrete, cheaply computable example. -/
def hW : Bytes → Bytes → Bytes := fun a b => [beBytesToNat a + beBytesToNat b + 1]

/-- Concrete zero-hash table for the witnesses (nonzero at every level). -/
def zW : Nat → Bytes := fun k => [k + 1000]

/-- Concrete leaf stream for the witnesses. -/
def lW : Nat → Bytes := fun i => [i + 1]

set_option maxRecDepth 100000 in
/-- Witness for C8: the spec scenario S5 — with `HISTORY = 3` and five
appends the initial empty-tree root is no longer known while the current
root is, via `c8_root_history_window`. -/
theorem c8_root_history_window_witness :
    is_known_root (treeStateAt hW zW lW 26 3 5) ((treeStateAt hW zW lW 26 3 0).root) = false ∧
    is_known_root (treeStateAt hW zW lW 26 3 5) ((treeStateAt hW zW lW 26 3 5).root) = true :=
  ⟨(c8_root_history_window hW zW lW 26 3 (by decide)).2 0 5 (by decide) (by decide)
      (by intro j hj1 hj2; interval_cases j <;> decide),
   (c8_root_history_window hW zW lW 26 3 (by decide)).1 5 5 (by decide) (by decide)
      (by decide) (by decide)⟩

/-- C9: from a fresh height-26 tree, the first `2^26` appends succeed
(the leaf counter tracking the number of appends exactly), every append
once `next_index` has reached `2^26` fails with `MerkleTreeFull`, an
append fails iff `next_index = 2^26` at call time, every successful
append increments `next_index` by exactly one, and `MerkleTreeFull` is
the only error `append` ever returns. -/
theorem c9_append_capacity (h : Bytes → Bytes → Bytes) (zeros leaves : Nat → Bytes)
    (hs : Nat) (hhs : 0 < hs) :
    (∀ n, n ≤ 2 ^ 26 → (treeStateAt h zeros leaves 26 hs n).nextIndex = n) ∧
    (∀ n, n < 2 ^ 26 →
      ∃ r, append h zeros (leaves n) (treeStateAt h zeros leaves 26 hs n) = .ok r) ∧
    (∀ n leaf, 2 ^ 26 ≤ n →
      append h zeros leaf (treeStateAt h zeros leaves 26 hs n) = .error .MerkleTreeFull) ∧
    (∀ n leaf,
      (∃ e, append h zeros leaf (treeStateAt h zeros leaves 26 hs n) = .error e) ↔
        (treeStateAt h zeros leaves 26 hs n).nextIndex = 2 ^ 26) ∧
    (∀ s leaf p t, append h zeros leaf s = .ok (p, t) → t.nextIndex = s.nextIndex + 1) ∧
    (∀ s leaf e, append h zeros leaf s = .error e → e = .MerkleTreeFull) := by
  have haux : ∀ n, (treeStateAt h zeros leaves 26 hs n).height = 26 ∧
      (treeStateAt h zeros leaves 26 hs n).nextIndex = min n (2 ^ 26) := by
    intro n
    by_cases hn : n ≤ 2 ^ 26
    · obtain ⟨g1, -, -, g4, -⟩ := treeStateAt_geom h zeros leaves 26 hs hhs n hn
      refine ⟨g1, ?_⟩
      rw [g4]
      omega
    · rw [treeStateAt_stuck h zeros leaves 26 hs hhs n (by omega)]
      obtain ⟨g1, -, -, g4, -⟩ := treeStateAt_geom h zeros leaves 26 hs hhs (2 ^ 26) (le_refl _)
      refine ⟨g1, ?_⟩
      rw [g4]
      omega
  refine ⟨?_, ?_, ?_, ?_, ?_, ?_⟩
  · intro n hn
    exact (treeStateAt_geom h zeros leaves 26 hs hhs n hn).2.2.2.1
  · intro n hn
    obtain ⟨g1, g4⟩ := haux n
    exact ⟨_, append_of_lt h zeros (leaves n) _ (by rw [g1, g4]; omega)⟩
  · intro n leaf hn
    obtain ⟨g1, g4⟩ := haux n
    exact append_of_ge h zeros leaf _ (by rw [g1, g4]; omega)
  · intro n leaf
    obtain ⟨g1, g4⟩ := haux n
    constructor
    · rintro ⟨e, he⟩
      by_cases hlt : (treeStateAt h zeros leaves 26 hs n).nextIndex <
          2 ^ (treeStateAt h zeros leaves 26 hs n).height
      · rw [append_of_lt h zeros leaf _ hlt] at he
        cases he
      · rw [g1] at hlt
        omega
    · intro hfull
      exact ⟨.MerkleTreeFull, append_of_ge h zeros leaf _ (by rw [g1, hfull]; omega)⟩
  · intro s leaf p t he
    unfold append at he
    by_cases hlt : s.nextIndex < 2 ^ s.height
    · rw [if_pos hlt] at he
      simp only [Except.ok.injEq, Prod.mk.injEq] at he
      rw [← he.2]
      simp [appendOkState]
    · rw [if_neg hlt] at he
      cases he
  · intro s leaf e he
    unfold append at he
    by_cases hlt : s.nextIndex < 2 ^ s.height
    · rw [if_pos hlt] at he
      cases he
    · rw [if_neg hlt] at he
      cases he
      rfl

set_option maxRecDepth 100000 in
/-- Witness for C9: after two appends from a fresh tree the leaf counter
is `2`, and at that state an append fails exactly when the counter has
reached `2^26`, via `c9_append_capacity`. -/
theorem c9_append_capacity_witness :
    (treeStateAt hW zW lW 26 3 2).nextIndex = 2 ∧
    ((∃ e, append hW zW [5] (treeStateAt hW zW lW 26 3 2) = .error e) ↔
      (treeStateAt hW zW lW 26 3 2).nextIndex = 2 ^ 26) :=
  ⟨(c9_append_capacity hW zW lW 3 (by decide)).1 2 (by decide),
   (c9_append_capacity hW zW lW 3 (by decide)).2.2.2.1 2 [5]⟩

/-- C10: for every new limit (zero and `u64::MAX` included), an
`update_deposit_limit` call by the tree's recorded authority succeeds and
the resulting state is the old one with `max_deposit_amount` replaced by
exactly the new limit — every other field is untouched and no bound or
relation to the previous value is checked. -/
theorem c10_update_deposit_limit_spec (s : MerkleTreeAccount) (caller : Bytes) (n : Nat)
    (hauth : caller = s.authority) :
    update_deposit_limit s caller n = .ok { s with maxDepositAmount := n } := by
  simp [update_deposit_limit, hauth]

/-- Witness for C10: concrete authority-signed updates to `u64::MAX` and
to `0`, via `c10_update_deposit_limit_spec`. -/
theorem c10_update_deposit_limit_witness :
    update_deposit_limit (freshTree zW 26 3) (freshTree zW 26 3).authority (2 ^ 64 - 1) =
      .ok { freshTree zW 26 3 with maxDepositAmount := 2 ^ 64 - 1 } ∧
    update_deposit_limit (freshTree zW 26 3) (freshTree zW 26 3).authority 0 =
      .ok { freshTree zW 26 3 with maxDepositAmount := 0 } :=
  ⟨c10_update_deposit_limit_spec _ _ _ rfl, c10_update_deposit_limit_spec _ _ _ rfl⟩

/-! ### SHA-256 (the host's `solana_program::hash::hash`) -/

/-- Right rotation of a 32-bit word. -/
def rotr32 (x n : Nat) : Nat := ((x >>> n) ||| (x <<< (32 - n))) % 4294967296

/-- The SHA-256 round constants. -/
def sha256K : List Nat :=
  [1116352408, 1899447441, 3049323471, 3921009573, 961987163, 1508970993,
   2453635748, 2870763221, 3624381080, 310598401, 607225278, 1426881987,
   1925078388, 2162078206, 2614888103, 3248222580, 3835390401, 4022224774,
   264347078, 604807628, 770255983, 1249150122, 1555081692, 1996064986,
   2554220882, 2821834349, 2952996808, 3210313671, 3336571891, 3584528711,
   113926993, 338241895, 666307205, 773529912, 1294757372, 1396182291,
   1695183700, 1986661051, 2177026350, 2456956037, 2730485921, 2820302411,
   3259730800, 3345764771, 3516065817, 3600352804, 4094571909, 275423344,
   430227734, 506948616, 659060556, 883997877, 958139571, 1322822218,
   1537002063, 1747873779, 1955562222, 2024104815, 2227730452, 2361852424,
   2428436474, 2756734187, 3204031479, 3329325298]

/-- The SHA-256 initial hash state. -/
def sha256H0 : List Nat :=
  [1779033703, 3144134277, 1013904242, 2773480762, 1359893119,
   2600822924, 528734635, 1541459225]

/-- Big-endian 4-byte encoding of a 32-bit word. -/
def wordToBytesBE (n : Nat) : Bytes := [n / 2 ^ 24 % 256, n / 2 ^ 16 % 256, n / 2 ^ 8 % 256, n % 256]

/-- Big-endian 8-byte encoding of the 64-bit message bit length. -/
def len64ToBytesBE (n : Nat) : Bytes := (List.range 8).map fun i => n / 2 ^ (8 * (7 - i)) % 256

/-- Group bytes into big-endian 32-bit words. -/
def bytesToWordsBE : Bytes → List Nat
  | a :: b :: c :: d :: rest => (((a * 256 + b) * 256 + c) * 256 + d) :: bytesToWordsBE rest
  | _ => []

/-- SHA-256 padding: a `0x80` byte, zeros up to 56 mod 64, then the 64-bit
big-endian bit length. -/
def sha256Pad (msg : Bytes) : Bytes :=
  msg ++ [128] ++ List.replicate ((119 - msg.length % 64) % 64) 0 ++ len64ToBytesBE (8 * msg.length)

/-- One message-schedule extension step. -/
def sha256ExtendStep (w : List Nat) : List Nat :=
  let n := w.length
  let w15 := w.getD (n - 15) 0
  let w2 := w.getD (n - 2) 0
  let s0 := (rotr32 w15 7) ^^^ (rotr32 w15 18) ^^^ (w15 >>> 3)
  let s1 := (rotr32 w2 17) ^^^ (rotr32 w2 19) ^^^ (w2 >>> 10)
  w ++ [(w.getD (n - 16) 0 + s0 + w.getD (n - 7) 0 + s1) % 4294967296]

/-- Extend the 16-word block schedule by `k` further words. -/
def sha256Schedule (w : List Nat) : Nat → List Nat
  | 0 => w
  | k + 1 => sha256ExtendStep (sha256Schedule w k)

/-- One compression round on the eight-word working state. -/
def sha256Round (w : List Nat) (st : List Nat) (i : Nat) : List Nat :=
  let a := st.getD 0 0
  let b := st.getD 1 0
  let c := st.getD 2 0
  let d := st.getD 3 0
  let e := st.getD 4 0
  let f := st.getD 5 0
  let g := st.getD 6 0
  let hh := st.getD 7 0
  let S1 := (rotr32 e 6) ^^^ (rotr32 e 11) ^^^ (rotr32 e 25)
  let ch := (e &&& f) ^^^ ((e ^^^ 4294967295) &&& g)
  let temp1 := (hh + S1 + ch + sha256K.getD i 0 + w.getD i 0) % 4294967296
  let S0 := (rotr32 a 2) ^^^ (rotr32 a 13) ^^^ (rotr32 a 22)
  let maj := (a &&& b) ^^^ (a &&& c) ^^^ (b &&& c)
  let temp2 := (S0 + maj) % 4294967296
  [(temp1 + temp2) % 4294967296, a, b, c, (d + temp1) % 4294967296, e, f, g]

/-- Process one 64-byte block. -/
def sha256Block (hs : List Nat) (block : Bytes) : List Nat :=
  let w := sha256Schedule (bytesToWordsBE block) 48
  let st := (List.range 64).foldl (sha256Round w) hs
  (List.zip hs st).map fun p => (p.1 + p.2) % 4294967296

/-- Split a byte string into 64-byte chunks (fuel-driven). -/
def chunks64 : Nat → Bytes → List Bytes
  | 0, _ => []
  | _, [] => []
  | fuel + 1, l => l.take 64 :: chunks64 fuel (l.drop 64)

/-- SHA-256 of a byte string. -/
def sha256 (msg : Bytes) : Bytes :=
  let padded := sha256Pad msg
  let final := (chunks64 padded.length padded).foldl sha256Block sha256H0
  (final.map wordToBytesBE).foldr (fun a b => a ++ b) []

set_option maxRecDepth 100000 in
/-- The SHA-256 of the empty message (FIPS 180-4 test vector). -/
example : sha256 [] =
    [0xe3, 0xb0, 0xc4, 0x42, 0x98, 0xfc, 0x1c, 0x14, 0x9a, 0xfb, 0xf4, 0xc8, 0x99, 0x6f, 0xb9,
     0x24, 0x27, 0xae, 0x41, 0xe4, 0x64, 0x9b, 0x93, 0x4c, 0xa4, 0x95, 0x99, 0x1b, 0x78, 0x52,
     0xb8, 0x55] := by decide

/-! ### Borsh serialization of `ExtData` -/

/-- Little-endian fixed-width byte encoding of a natural number. -/
def natToLeBytes (n : Nat) : Nat → Bytes
  | 0 => []
  | k + 1 => (n % 256) :: natToLeBytes (n / 256) k

/-- Borsh `u32` little-endian encoding (`Vec<u8>` length prefix). -/
def u32le (n : Nat) : Bytes := natToLeBytes n 4

/-- Borsh `u64` little-endian encoding. -/
def u64le (n : Nat) : Bytes := natToLeBytes n 8

/-- Borsh `i64` little-endian two's-complement encoding. -/
def i64le (x : Int) : Bytes := natToLeBytes (x.emod (2 ^ 64)).toNat 8

/-- Modelled from the spec: the constant native-mint identifier
(`utils::SOL_ADDRESS`); its concrete value is not observable in `src/`
and is immaterial to the claims, so the all-zero key is used. -/
def SOL_ADDRESS : Bytes := zero32

/-- Modelled from the spec: the Borsh serialization of the full `ExtData`
record in its exact declaration order — `recipient`, `ext_amount : i64`,
`encrypted_output1 : Vec<u8>` (u32-length-prefixed), `encrypted_output2`
(u32-length-prefixed), `fee : u64`, `fee_recipient`, `mint_address`. -/
def borshExtData (recipient : Bytes) (ext_amount : Int) (eo1 eo2 : Bytes) (fee : Nat)
    (fee_recipient mint_address : Bytes) : Bytes :=
  recipient ++ i64le ext_amount ++ u32le eo1.length ++ eo1 ++ u32le eo2.length ++ eo2 ++
    u64le fee ++ fee_recipient ++ mint_address

/-- Modelled from the spec: `utils::calculate_complete_ext_data_hash` —
the SHA-256 digest of the Borsh serialization of the full `ExtData`. -/
def calculate_complete_ext_data_hash (recipient : Bytes) (ext_amount : Int) (eo1 eo2 : Bytes)
    (fee : Nat) (fee_recipient mint_address : Bytes) : Bytes :=
  sha256 (borshExtData recipient ext_amount eo1 eo2 fee fee_recipient mint_address)

/-! ### The `transact` state machine (`lib.rs`) -/

/-- The `Proof` wire structure of `lib.rs`; all 32-byte public-input
fields are big-endian field encodings. -/
structure Proof where
  proofA : Bytes
  proofB : Bytes
  proofC : Bytes
  root : Bytes
  publicAmount : Bytes
  extDataHash : Bytes
  inputNullifier0 : Bytes
  inputNullifier1 : Bytes
  outputCommitment0 : Bytes
  outputCommitment1 : Bytes
deriving DecidableEq

/-- The `ExtDataMinified` wire structure of `lib.rs`. -/
structure ExtDataMinified where
  extAmount : Int
  fee : Nat
deriving DecidableEq

/-- A stored commitment record (`CommitmentAccount`): the PDA key slot
(`"commitment0"` or `"commitment1"`), the commitment bytes, the encrypted
output blob and the leaf index. -/
structure CommitmentRecord where
  slot : Nat
  commitment : Bytes
  encryptedOutput : Bytes
  index : Nat
deriving DecidableEq

/-- The durable state one `transact` call touches: the Merkle-tree
account, the lamport balances of the pool (`tree_token_account`), signer,
recipient and fee recipient, the nullifier-marker and commitment-record
ledgers, and the `GlobalConfig` fee policy. -/
structure TransactState where
  tree : MerkleTreeAccount
  poolBalance : Nat
  signerBalance : Nat
  recipientBalance : Nat
  feeRecipientBalance : Nat
  nullifiers : List (Nat × Bytes)
  commitments : List CommitmentRecord
  depositFeeRate : Nat
  withdrawalFeeRate : Nat
  feeErrorMargin : Nat
deriving DecidableEq

/-- The value-movement phase of `transact` (`lib.rs` lines 169–219): a
deposit checks the limit and moves `ext_amount` lamports from the signer
to the pool (a system transfer, failing if the signer lacks funds); a
withdrawal rejects `i64::MIN`, requires the pool to hold
`|ext| + fee + rent` with checked sums, debits the pool and credits the
recipient with checked arithmetic; `ext_amount = 0` moves nothing.
Returns the new pool, signer and recipient balances. -/
def processValueMovement (rent : Nat) (extAmount : Int) (fee : Nat) (maxDeposit : Nat)
    (pool signer recipient : Nat) : Except ErrorCode (Nat × Nat × Nat) :=
  if 0 < extAmount then
    let dep := extAmount.toNat
    if dep ≤ maxDeposit then
      if dep ≤ signer then .ok (pool + dep, signer - dep, recipient)
      else .error .SystemTransferFailed
    else .error .DepositLimitExceeded
  else if extAmount < 0 then
    if extAmount = i64Min then .error .ArithmeticOverflow
    else
      let w := extAmount.natAbs
      if 2 ^ 64 ≤ w + fee then .error .ArithmeticOverflow
      else if 2 ^ 64 ≤ w + fee + rent then .error .ArithmeticOverflow
      else if w + fee + rent ≤ pool then
        if 2 ^ 64 ≤ recipient + w then .error .ArithmeticOverflow
        else .ok (pool - w, signer, recipient + w)
      else .error .InsufficientFundsForWithdrawal
  else .ok (pool, signer, recipient)

/-- The fee-payment phase of `transact` (`lib.rs` lines 221–245): when
`fee > 0`, a non-negative `ext_amount` additionally requires the pool to
hold `fee + rent` (checked sum, else `InsufficientFundsForFee`), then the
pool is debited and the fee recipient credited with checked arithmetic.
Returns the new pool and fee-recipient balances. -/
def processFee (rent : Nat) (extAmount : Int) (fee : Nat) (pool feeRecipient : Nat) :
    Except ErrorCode (Nat × Nat) :=
  if 0 < fee then
    if 0 ≤ extAmount ∧ 2 ^ 64 ≤ fee + rent then .error .ArithmeticOverflow
    else if 0 ≤ extAmount ∧ pool < fee + rent then .error .InsufficientFundsForFee
    else if pool < fee then .error .ArithmeticOverflow
    else if 2 ^ 64 ≤ feeRecipient + fee then .error .ArithmeticOverflow
    else .ok (pool - fee, feeRecipient + fee)
  else .ok (pool, feeRecipient)

/-- The `transact` entry point of `lib.rs`.  The Anchor account
constraints run first: `init` of the two nullifier PDAs and the
`SystemAccount` checks on the two swapped-slot nullifier PDAs abort if
any of the four key variants already exists, and `init` of the two
commitment PDAs aborts likewise.  The handler body then checks, in
order: root freshness, external-data hash binding (a field-element
comparison of the little-endian SHA-256 digest against the big-endian
proof field), public-amount consistency, fee policy, and the
zero-knowledge proof (`verifyFn`, the Groth16 verifier, supplied as a
capability since `groth16.rs`/`utils.rs` are not under `src/`); it then
moves value, pays the fee, appends the two output commitments and
persists the two commitment records.  Any error leaves the caller's
state untouched (the ledger rolls the transaction back). -/
def transact (h : Bytes → Bytes → Bytes) (zeros : Nat → Bytes) (verifyFn : Proof → Bool)
    (rent : Nat) (proof : Proof) (extData : ExtDataMinified) (eo1 eo2 : Bytes)
    (recipientKey feeRecipientKey : Bytes) (st : TransactState) :
    Except ErrorCode TransactState :=
  if (0, proof.inputNullifier0) ∈ st.nullifiers ∨ (1, proof.inputNullifier1) ∈ st.nullifiers ∨
      (0, proof.inputNullifier1) ∈ st.nullifiers ∨ (1, proof.inputNullifier0) ∈ st.nullifiers then
    .error .AccountAlreadyInUse
  else if (∃ c ∈ st.commitments, c.slot = 0 ∧ c.commitment = proof.outputCommitment0) ∨
      (∃ c ∈ st.commitments, c.slot = 1 ∧ c.commitment = proof.outputCommitment1) then
    .error .AccountAlreadyInUse
  else if is_known_root st.tree proof.root = false then .error .UnknownRoot
  else if fr_from_le (calculate_complete_ext_data_hash recipientKey extData.extAmount eo1 eo2
      extData.fee feeRecipientKey SOL_ADDRESS) ≠ fr_from_be proof.extDataHash then
    .error .ExtDataHashMismatch
  else if check_public_amount extData.extAmount extData.fee proof.publicAmount = false then
    .error .InvalidPublicAmountData
  else
    match validate_fee extData.extAmount extData.fee st.depositFeeRate st.withdrawalFeeRate
        st.feeErrorMargin with
    | .error e => .error e
    | .ok _ =>
      if verifyFn proof = false then .error .InvalidProof
      else
        match processValueMovement rent extData.extAmount extData.fee st.tree.maxDepositAmount
            st.poolBalance st.signerBalance st.recipientBalance with
        | .error e => .error e
        | .ok (pool1, signer1, recipient1) =>
          match processFee rent extData.extAmount extData.fee pool1 st.feeRecipientBalance with
          | .error e => .error e
          | .ok (pool2, feeRecipient2) =>
            match append h zeros proof.outputCommitment0 st.tree with
            | .error e => .error e
            | .ok (_, tree1) =>
              match append h zeros proof.outputCommitment1 tree1 with
              | .error e => .error e
              | .ok (_, tree2) =>
                if 2 ^ 64 ≤ st.tree.nextIndex + 1 then .error .ArithmeticOverflow
                else
                  .ok { st with
                    tree := tree2
                    poolBalance := pool2
                    signerBalance := signer1
                    recipientBalance := recipient1
                    feeRecipientBalance := feeRecipient2
                    nullifiers := (0, proof.inputNullifier0) :: (1, proof.inputNullifier1) ::
                      st.nullifiers
                    commitments :=
                      ⟨0, proof.outputCommitment0, eo1, st.tree.nextIndex⟩ ::
                      ⟨1, proof.outputCommitment1, eo2, st.tree.nextIndex + 1⟩ ::
                      st.commitments }

/-- The durable state after a call: the new state on success, the
caller's state otherwise (the ledger commits all-or-nothing). -/
def resultingState (r : Except ErrorCode TransactState) (st : TransactState) : TransactState :=
  match r with
  | .ok t => t
  | .error _ => st

/-- Freshness of all four nullifier PDA key variants
(`("nullifier0"|"nullifier1") × (N0|N1)`). -/
def nullifiersFresh (proof : Proof) (st : TransactState) : Prop :=
  (0, proof.inputNullifier0) ∉ st.nullifiers ∧ (1, proof.inputNullifier1) ∉ st.nullifiers ∧
  (0, proof.inputNullifier1) ∉ st.nullifiers ∧ (1, proof.inputNullifier0) ∉ st.nullifiers

instance (proof : Proof) (st : TransactState) : Decidable (nullifiersFresh proof st) := by
  unfold nullifiersFresh
  infer_instance

/-- Freshness of the two commitment PDA keys. -/
def commitmentsFresh (proof : Proof) (st : TransactState) : Prop :=
  ¬ ((∃ c ∈ st.commitments, c.slot = 0 ∧ c.commitment = proof.outputCommitment0) ∨
     (∃ c ∈ st.commitments, c.slot = 1 ∧ c.commitment = proof.outputCommitment1))

instance (proof : Proof) (st : TransactState) : Decidable (commitmentsFresh proof st) := by
  unfold commitmentsFresh
  infer_instance

lemma nullifiersFresh_iff (proof : Proof) (st : TransactState) :
    nullifiersFresh proof st ↔
      ¬ ((0, proof.inputNullifier0) ∈ st.nullifiers ∨ (1, proof.inputNullifier1) ∈ st.nullifiers ∨
         (0, proof.inputNullifier1) ∈ st.nullifiers ∨ (1, proof.inputNullifier0) ∈ st.nullifiers) := by
  unfold nullifiersFresh
  tauto

lemma validate_fee_error_cases (ext : Int) (fee d w m : Nat) (e : ErrorCode)
    (he : validate_fee ext fee d w m = .error e) :
    e = .ArithmeticOverflow ∨ e = .InvalidFeeAmount := by
  simp only [validate_fee] at he
  split_ifs at he <;> simp_all

lemma processValueMovement_error_cases (rent : Nat) (ext : Int)
    (fee maxDep pool signer recipient : Nat) (e : ErrorCode)
    (he : processValueMovement rent ext fee maxDep pool signer recipient = .error e) :
    e = .SystemTransferFailed ∨ e = .DepositLimitExceeded ∨ e = .ArithmeticOverflow ∨
      e = .InsufficientFundsForWithdrawal := by
  simp only [processValueMovement] at he
  split_ifs at he <;> simp_all

lemma processFee_error_cases (rent : Nat) (ext : Int) (fee pool feeRecipient : Nat)
    (e : ErrorCode) (he : processFee rent ext fee pool feeRecipient = .error e) :
    e = .ArithmeticOverflow ∨ e = .InsufficientFundsForFee := by
  simp only [processFee] at he
  split_ifs at he <;> simp_all

lemma append_error_eq (h : Bytes → Bytes → Bytes) (zeros : Nat → Bytes) (leaf : Bytes)
    (s : MerkleTreeAccount) (e : ErrorCode) (he : append h zeros leaf s = .error e) :
    e = .MerkleTreeFull := by
  simp only [append] at he
  split_ifs at he <;> simp_all

lemma processValueMovement_ok_deposit (rent : Nat) (ext : Int)
    (fee maxDep pool signer recipient p s r : Nat) (hpos : 0 < ext)
    (hok : processValueMovement rent ext fee maxDep pool signer recipient = .ok (p, s, r)) :
    ext.toNat ≤ maxDep ∧ ext.toNat ≤ signer ∧
    p = pool + ext.toNat ∧ s = signer - ext.toNat ∧ r = recipient := by
  simp only [processValueMovement, if_pos hpos] at hok
  by_cases hl : ext.toNat ≤ maxDep
  · rw [if_pos hl] at hok
    by_cases hsig : ext.toNat ≤ signer
    · rw [if_pos hsig] at hok
      simp only [Except.ok.injEq, Prod.mk.injEq] at hok
      exact ⟨hl, hsig, hok.1.symm, hok.2.1.symm, hok.2.2.symm⟩
    · rw [if_neg hsig] at hok
      cases hok
  · rw [if_neg hl] at hok
    cases hok

lemma processFee_ok_pos (rent : Nat) (ext : Int) (fee pool feeRecipient p f : Nat)
    (hfee : 0 < fee) (hext : 0 ≤ ext)
    (hok : processFee rent ext fee pool feeRecipient = .ok (p, f)) :
    fee + rent ≤ pool ∧ p = pool - fee ∧ f = feeRecipient + fee := by
  simp only [processFee, if_pos hfee] at hok
  by_cases h1 : 0 ≤ ext ∧ 2 ^ 64 ≤ fee + rent
  · rw [if_pos h1] at hok
    cases hok
  rw [if_neg h1] at hok
  by_cases h2 : 0 ≤ ext ∧ pool < fee + rent
  · rw [if_pos h2] at hok
    cases hok
  rw [if_neg h2] at hok
  by_cases h3 : pool < fee
  · rw [if_pos h3] at hok
    cases hok
  rw [if_neg h3] at hok
  by_cases h4 : 2 ^ 64 ≤ feeRecipient + fee
  · rw [if_pos h4] at hok
    cases hok
  rw [if_neg h4] at hok
  simp only [Except.ok.injEq, Prod.mk.injEq] at hok
  refine ⟨?_, hok.1.symm, hok.2.symm⟩
  by_contra hlt
  exact h2 ⟨hext, by omega⟩

set_option maxHeartbeats 1000000 in
/-- Inverting a successful `transact` call: every gate passed and the
resulting state is exactly the recorded mutation. -/
lemma transact_ok_inversion (h : Bytes → Bytes → Bytes) (zeros : Nat → Bytes)
    (verifyFn : Proof → Bool) (rent : Nat) (proof : Proof) (extData : ExtDataMinified)
    (eo1 eo2 rk fk : Bytes) (st t : TransactState)
    (hTX : transact h zeros verifyFn rent proof extData eo1 eo2 rk fk st = .ok t) :
    nullifiersFresh proof st ∧
    commitmentsFresh proof st ∧
    is_known_root st.tree proof.root = true ∧
    fr_from_le (calculate_complete_ext_data_hash rk extData.extAmount eo1 eo2 extData.fee fk
      SOL_ADDRESS) = fr_from_be proof.extDataHash ∧
    check_public_amount extData.extAmount extData.fee proof.publicAmount = true ∧
    validate_fee extData.extAmount extData.fee st.depositFeeRate st.withdrawalFeeRate
      st.feeErrorMargin = .ok () ∧
    verifyFn proof = true ∧
    ∃ pool1 signer1 recipient1 pool2 feeRecipient2 path1 tree1 path2 tree2,
      processValueMovement rent extData.extAmount extData.fee st.tree.maxDepositAmount
        st.poolBalance st.signerBalance st.recipientBalance = .ok (pool1, signer1, recipient1) ∧
      processFee rent extData.extAmount extData.fee pool1 st.feeRecipientBalance =
        .ok (pool2, feeRecipient2) ∧
      append h zeros proof.outputCommitment0 st.tree = .ok (path1, tree1) ∧
      append h zeros proof.outputCommitment1 tree1 = .ok (path2, tree2) ∧
      t = { st with
        tree := tree2
        poolBalance := pool2
        signerBalance := signer1
        recipientBalance := recipient1
        feeRecipientBalance := feeRecipient2
        nullifiers := (0, proof.inputNullifier0) :: (1, proof.inputNullifier1) :: st.nullifiers
        commitments := ⟨0, proof.outputCommitment0, eo1, st.tree.nextIndex⟩ ::
          ⟨1, proof.outputCommitment1, eo2, st.tree.nextIndex + 1⟩ :: st.commitments } := by
  unfold transact at hTX
  by_cases h1 : (0, proof.inputNullifier0) ∈ st.nullifiers ∨
      (1, proof.inputNullifier1) ∈ st.nullifiers ∨
      (0, proof.inputNullifier1) ∈ st.nullifiers ∨ (1, proof.inputNullifier0) ∈ st.nullifiers
  · rw [if_pos h1] at hTX
    cases hTX
  rw [if_neg h1] at hTX
  by_cases h2 : (∃ c ∈ st.commitments, c.slot = 0 ∧ c.commitment = proof.outputCommitment0) ∨
      (∃ c ∈ st.commitments, c.slot = 1 ∧ c.commitment = proof.outputCommitment1)
  · rw [if_pos h2] at hTX
    cases hTX
  rw [if_neg h2] at hTX
  by_cases h3 : is_known_root st.tree proof.root = false
  · rw [if_pos h3] at hTX
    cases hTX
  rw [if_neg h3] at hTX
  by_cases h4 : fr_from_le (calculate_complete_ext_data_hash rk extData.extAmount eo1 eo2
      extData.fee fk SOL_ADDRESS) ≠ fr_from_be proof.extDataHash
  · rw [if_pos h4] at hTX
    cases hTX
  rw [if_neg h4] at hTX
  by_cases h5 : check_public_amount extData.extAmount extData.fee proof.publicAmount = false
  · rw [if_pos h5] at hTX
    cases hTX
  rw [if_neg h5] at hTX
  cases hval : validate_fee extData.extAmount extData.fee st.depositFeeRate st.withdrawalFeeRate
      st.feeErrorMargin with
  | error e =>
    rw [hval] at hTX
    cases hTX
  | ok u =>
    rw [hval] at hTX
    by_cases h6 : verifyFn proof = false
    · rw [if_pos h6] at hTX
      cases hTX
    rw [if_neg h6] at hTX
    cases hmv : processValueMovement rent extData.extAmount extData.fee
        st.tree.maxDepositAmount st.poolBalance st.signerBalance st.recipientBalance with
    | error e =>
      rw [hmv] at hTX
      cases hTX
    | ok mv =>
      obtain ⟨pool1, signer1, recipient1⟩ := mv
      simp only [hmv] at hTX
      cases hpf : processFee rent extData.extAmount extData.fee pool1
          st.feeRecipientBalance with
      | error e =>
        simp only [hpf] at hTX
        cases hTX
      | ok pf =>
        obtain ⟨pool2, feeRecipient2⟩ := pf
        simp only [hpf] at hTX
        cases hap1 : append h zeros proof.outputCommitment0 st.tree with
        | error e =>
          simp only [hap1] at hTX
          cases hTX
        | ok r1 =>
          obtain ⟨path1, tree1⟩ := r1
          simp only [hap1] at hTX
          cases hap2 : append h zeros proof.outputCommitment1 tree1 with
          | error e =>
            simp only [hap2] at hTX
            cases hTX
          | ok r2 =>
            obtain ⟨path2, tree2⟩ := r2
            simp only [hap2] at hTX
            by_cases h7 : 2 ^ 64 ≤ st.tree.nextIndex + 1
            · rw [if_pos h7] at hTX
              cases hTX
            rw [if_neg h7] at hTX
            refine ⟨(nullifiersFresh_iff proof st).mpr h1, h2, ?_, not_ne_iff.mp h4, ?_, ?_,
              ?_, ?_⟩
            · cases hroot : is_known_root st.tree proof.root
              · exact absurd hroot h3
              · rfl
            · cases hcpa : check_public_amount extData.extAmount extData.fee proof.publicAmount
              · exact absurd hcpa h5
              · rfl
            · rfl
            · cases hv : verifyFn proof
              · exact absurd hv h6
              · rfl
            · refine ⟨pool1, signer1, recipient1, pool2, feeRecipient2, path1, tree1, path2,
                tree2, rfl, hpf, rfl, hap2, ?_⟩
              simp only [Except.ok.injEq] at hTX
              exact hTX.symm

lemma transact_error_unknown_root (h : Bytes → Bytes → Bytes) (zeros : Nat → Bytes)
    (verifyFn : Proof → Bool) (rent : Nat) (proof : Proof) (extData : ExtDataMinified)
    (eo1 eo2 rk fk : Bytes) (st : TransactState)
    (hn : nullifiersFresh proof st) (hc : commitmentsFresh proof st)
    (hroot : is_known_root st.tree proof.root = false) :
    transact h zeros verifyFn rent proof extData eo1 eo2 rk fk st = .error .UnknownRoot := by
  unfold commitmentsFresh at hc
  unfold transact
  rw [if_neg ((nullifiersFresh_iff proof st).mp hn), if_neg hc, if_pos hroot]

lemma transact_error_hash (h : Bytes → Bytes → Bytes) (zeros : Nat → Bytes)
    (verifyFn : Proof → Bool) (rent : Nat) (proof : Proof) (extData : ExtDataMinified)
    (eo1 eo2 rk fk : Bytes) (st : TransactState)
    (hn : nullifiersFresh proof st) (hc : commitmentsFresh proof st)
    (hroot : is_known_root st.tree proof.root = true)
    (hne : fr_from_le (calculate_complete_ext_data_hash rk extData.extAmount eo1 eo2 extData.fee
      fk SOL_ADDRESS) ≠ fr_from_be proof.extDataHash) :
    transact h zeros verifyFn rent proof extData eo1 eo2 rk fk st =
      .error .ExtDataHashMismatch := by
  unfold commitmentsFresh at hc
  unfold transact
  rw [if_neg ((nullifiersFresh_iff proof st).mp hn), if_neg hc,
    if_neg (by simp [hroot]), if_pos hne]

lemma transact_error_public_amount (h : Bytes → Bytes → Bytes) (zeros : Nat → Bytes)
    (verifyFn : Proof → Bool) (rent : Nat) (proof : Proof) (extData : ExtDataMinified)
    (eo1 eo2 rk fk : Bytes) (st : TransactState)
    (hn : nullifiersFresh proof st) (hc : commitmentsFresh proof st)
    (hroot : is_known_root st.tree proof.root = true)
    (heq : fr_from_le (calculate_complete_ext_data_hash rk extData.extAmount eo1 eo2 extData.fee
      fk SOL_ADDRESS) = fr_from_be proof.extDataHash)
    (hpub : check_public_amount extData.extAmount extData.fee proof.publicAmount = false) :
    transact h zeros verifyFn rent proof extData eo1 eo2 rk fk st =
      .error .InvalidPublicAmountData := by
  unfold commitmentsFresh at hc
  unfold transact
  rw [if_neg ((nullifiersFresh_iff proof st).mp hn), if_neg hc,
    if_neg (by simp [hroot]), if_neg (by simp [heq]), if_pos hpub]

lemma transact_error_validate (h : Bytes → Bytes → Bytes) (zeros : Nat → Bytes)
    (verifyFn : Proof → Bool) (rent : Nat) (proof : Proof) (extData : ExtDataMinified)
    (eo1 eo2 rk fk : Bytes) (st : TransactState) (e : ErrorCode)
    (hn : nullifiersFresh proof st) (hc : commitmentsFresh proof st)
    (hroot : is_known_root st.tree proof.root = true)
    (heq : fr_from_le (calculate_complete_ext_data_hash rk extData.extAmount eo1 eo2 extData.fee
      fk SOL_ADDRESS) = fr_from_be proof.extDataHash)
    (hpub : check_public_amount extData.extAmount extData.fee proof.publicAmount = true)
    (hval : validate_fee extData.extAmount extData.fee st.depositFeeRate st.withdrawalFeeRate
      st.feeErrorMargin = .error e) :
    transact h zeros verifyFn rent proof extData eo1 eo2 rk fk st = .error e := by
  unfold commitmentsFresh at hc
  unfold transact
  rw [if_neg ((nullifiersFresh_iff proof st).mp hn), if_neg hc,
    if_neg (by simp [hroot]), if_neg (by simp [heq]), if_neg (by simp [hpub]), hval]

lemma transact_error_verify (h : Bytes → Bytes → Bytes) (zeros : Nat → Bytes)
    (verifyFn : Proof → Bool) (rent : Nat) (proof : Proof) (extData : ExtDataMinified)
    (eo1 eo2 rk fk : Bytes) (st : TransactState)
    (hn : nullifiersFresh proof st) (hc : commitmentsFresh proof st)
    (hroot : is_known_root st.tree proof.root = true)
    (heq : fr_from_le (calculate_complete_ext_data_hash rk extData.extAmount eo1 eo2 extData.fee
      fk SOL_ADDRESS) = fr_from_be proof.extDataHash)
    (hpub : check_public_amount extData.extAmount extData.fee proof.publicAmount = true)
    (hval : validate_fee extData.extAmount extData.fee st.depositFeeRate st.withdrawalFeeRate
      st.feeErrorMargin = .ok ())
    (hv : verifyFn proof = false) :
    transact h zeros verifyFn rent proof extData eo1 eo2 rk fk st = .error .InvalidProof := by
  unfold commitmentsFresh at hc
  unfold transact
  rw [if_neg ((nullifiersFresh_iff proof st).mp hn), if_neg hc,
    if_neg (by simp [hroot]), if_neg (by simp [heq]), if_neg (by simp [hpub]), hval]
  simp [hv]

/-- `ExtDataHashMismatch` can only come from the hash-binding gate, so it
certifies that the two field elements differ. -/
lemma transact_EDHM_hash (h : Bytes → Bytes → Bytes) (zeros : Nat → Bytes)
    (verifyFn : Proof → Bool) (rent : Nat) (proof : Proof) (extData : ExtDataMinified)
    (eo1 eo2 rk fk : Bytes) (st : TransactState)
    (hTX : transact h zeros verifyFn rent proof extData eo1 eo2 rk fk st =
      .error .ExtDataHashMismatch) :
    fr_from_le (calculate_complete_ext_data_hash rk extData.extAmount eo1 eo2 extData.fee fk
      SOL_ADDRESS) ≠ fr_from_be proof.extDataHash := by
  by_contra hnne
  unfold transact at hTX
  by_cases h1 : (0, proof.inputNullifier0) ∈ st.nullifiers ∨
      (1, proof.inputNullifier1) ∈ st.nullifiers ∨
      (0, proof.inputNullifier1) ∈ st.nullifiers ∨ (1, proof.inputNullifier0) ∈ st.nullifiers
  · rw [if_pos h1] at hTX
    simp at hTX
  rw [if_neg h1] at hTX
  by_cases h2 : (∃ c ∈ st.commitments, c.slot = 0 ∧ c.commitment = proof.outputCommitment0) ∨
      (∃ c ∈ st.commitments, c.slot = 1 ∧ c.commitment = proof.outputCommitment1)
  · rw [if_pos h2] at hTX
    simp at hTX
  rw [if_neg h2] at hTX
  by_cases h3 : is_known_root st.tree proof.root = false
  · rw [if_pos h3] at hTX
    simp at hTX
  rw [if_neg h3] at hTX
  rw [if_neg (not_ne_iff.mpr hnne)] at hTX
  by_cases h5 : check_public_amount extData.extAmount extData.fee proof.publicAmount = false
  · rw [if_pos h5] at hTX
    simp at hTX
  rw [if_neg h5] at hTX
  cases hval : validate_fee extData.extAmount extData.fee st.depositFeeRate st.withdrawalFeeRate
      st.feeErrorMargin with
  | error e =>
    rw [hval] at hTX
    have he := Except.error.inj hTX
    rcases validate_fee_error_cases _ _ _ _ _ _ hval with rfl | rfl <;> cases he
  | ok u =>
    rw [hval] at hTX
    by_cases h6 : verifyFn proof = false
    · rw [if_pos h6] at hTX
      simp at hTX
    rw [if_neg h6] at hTX
    cases hmv : processValueMovement rent extData.extAmount extData.fee
        st.tree.maxDepositAmount st.poolBalance st.signerBalance st.recipientBalance with
    | error e =>
      rw [hmv] at hTX
      have he := Except.error.inj hTX
      rcases processValueMovement_error_cases _ _ _ _ _ _ _ _ hmv with rfl | rfl | rfl | rfl <;>
        cases he
    | ok mv =>
      obtain ⟨pool1, signer1, recipient1⟩ := mv
      simp only [hmv] at hTX
      cases hpf : processFee rent extData.extAmount extData.fee pool1
          st.feeRecipientBalance with
      | error e =>
        simp only [hpf] at hTX
        have he := Except.error.inj hTX
        rcases processFee_error_cases _ _ _ _ _ _ hpf with rfl | rfl <;> cases he
      | ok pf =>
        obtain ⟨pool2, feeRecipient2⟩ := pf
        simp only [hpf] at hTX
        cases hap1 : append h zeros proof.outputCommitment0 st.tree with
        | error e =>
          simp only [hap1] at hTX
          have he := Except.error.inj hTX
          rcases append_error_eq _ _ _ _ _ hap1 with rfl
          cases he
        | ok r1 =>
          obtain ⟨path1, tree1⟩ := r1
          simp only [hap1] at hTX
          cases hap2 : append h zeros proof.outputCommitment1 tree1 with
          | error e =>
            simp only [hap2] at hTX
            have he := Except.error.inj hTX
            rcases append_error_eq _ _ _ _ _ hap2 with rfl
            cases he
          | ok r2 =>
            obtain ⟨path2, tree2⟩ := r2
            simp only [hap2] at hTX
            by_cases h7 : 2 ^ 64 ≤ st.tree.nextIndex + 1
            · rw [if_pos h7] at hTX
              simp at hTX
            · rw [if_neg h7] at hTX
              simp at hTX

/-- A deposit whose limit and signer-funds checks pass moves the funds. -/
lemma processValueMovement_deposit_eq (rent : Nat) (ext : Int)
    (fee maxDep pool signer recipient : Nat) (hpos : 0 < ext)
    (hl : ext.toNat ≤ maxDep) (hsig : ext.toNat ≤ signer) :
    processValueMovement rent ext fee maxDep pool signer recipient =
      .ok (pool + ext.toNat, signer - ext.toNat, recipient) := by
  simp [processValueMovement, if_pos hpos, hl, hsig]

/-- A positive fee on a non-negative `ext_amount` with an underfunded pool
fails with `InsufficientFundsForFee`. -/
lemma processFee_shortfall (rent : Nat) (ext : Int) (fee pool feeRecipient : Nat)
    (hfee : 0 < fee) (hext : 0 ≤ ext) (hsum : fee + rent < 2 ^ 64)
    (hshort : pool < fee + rent) :
    processFee rent ext fee pool feeRecipient = .error .InsufficientFundsForFee := by
  rw [processFee, if_pos hfee, if_neg (by omega), if_pos ⟨hext, hshort⟩]

/-- C2: any failing `transact` call leaves the durable state untouched
(in particular a failure before — or at — any gate creates no nullifier
marker); the handler gates fire in the listed order — an unknown root
yields `UnknownRoot`, then a hash mismatch `ExtDataHashMismatch`, then a
bad public amount `InvalidPublicAmountData`, then the fee policy its own
error, then a failing proof `InvalidProof`; a call whose proof fails
verification can never commit; and a committed call passed proof
verification, found the nullifiers fresh, and is the only way the two
nullifier markers appear. -/
theorem c2_transact_order_atomicity (h : Bytes → Bytes → Bytes) (zeros : Nat → Bytes)
    (verifyFn : Proof → Bool) (rent : Nat) (proof : Proof) (extData : ExtDataMinified)
    (eo1 eo2 rk fk : Bytes) (st : TransactState) :
    (∀ e, transact h zeros verifyFn rent proof extData eo1 eo2 rk fk st = .error e →
      resultingState (transact h zeros verifyFn rent proof extData eo1 eo2 rk fk st) st = st) ∧
    (nullifiersFresh proof st → commitmentsFresh proof st →
      is_known_root st.tree proof.root = false →
      transact h zeros verifyFn rent proof extData eo1 eo2 rk fk st = .error .UnknownRoot) ∧
    (nullifiersFresh proof st → commitmentsFresh proof st →
      is_known_root st.tree proof.root = true →
      fr_from_le (calculate_complete_ext_data_hash rk extData.extAmount eo1 eo2 extData.fee fk
        SOL_ADDRESS) ≠ fr_from_be proof.extDataHash →
      transact h zeros verifyFn rent proof extData eo1 eo2 rk fk st =
        .error .ExtDataHashMismatch) ∧
    (nullifiersFresh proof st → commitmentsFresh proof st →
      is_known_root st.tree proof.root = true →
      fr_from_le (calculate_complete_ext_data_hash rk extData.extAmount eo1 eo2 extData.fee fk
        SOL_ADDRESS) = fr_from_be proof.extDataHash →
      check_public_amount extData.extAmount extData.fee proof.publicAmount = false →
      transact h zeros verifyFn rent proof extData eo1 eo2 rk fk st =
        .error .InvalidPublicAmountData) ∧
    (∀ e, nullifiersFresh proof st → commitmentsFresh proof st →
      is_known_root st.tree proof.root = true →
      fr_from_le (calculate_complete_ext_data_hash rk extData.extAmount eo1 eo2 extData.fee fk
        SOL_ADDRESS) = fr_from_be proof.extDataHash →
      check_public_amount extData.extAmount extData.fee proof.publicAmount = true →
      validate_fee extData.extAmount extData.fee st.depositFeeRate st.withdrawalFeeRate
        st.feeErrorMargin = .error e →
      transact h zeros verifyFn rent proof extData eo1 eo2 rk fk st = .error e) ∧
    (nullifiersFresh proof st → commitmentsFresh proof st →
      is_known_root st.tree proof.root = true →
      fr_from_le (calculate_complete_ext_data_hash rk extData.extAmount eo1 eo2 extData.fee fk
        SOL_ADDRESS) = fr_from_be proof.extDataHash →
      check_public_amount extData.extAmount extData.fee proof.publicAmount = true →
      validate_fee extData.extAmount extData.fee st.depositFeeRate st.withdrawalFeeRate
        st.feeErrorMargin = .ok () →
      verifyFn proof = false →
      transact h zeros verifyFn rent proof extData eo1 eo2 rk fk st = .error .InvalidProof) ∧
    (verifyFn proof = false →
      ∀ t, transact h zeros verifyFn rent proof extData eo1 eo2 rk fk st ≠ .ok t) ∧
    (∀ t, transact h zeros verifyFn rent proof extData eo1 eo2 rk fk st = .ok t →
      verifyFn proof = true ∧ nullifiersFresh proof st ∧
      (0, proof.inputNullifier0) ∈ t.nullifiers ∧ (1, proof.inputNullifier1) ∈ t.nullifiers) := by
  refine ⟨?_, ?_, ?_, ?_, ?_, ?_, ?_, ?_⟩
  · intro e he
    rw [he]
    rfl
  · exact transact_error_unknown_root h zeros verifyFn rent proof extData eo1 eo2 rk fk st
  · exact transact_error_hash h zeros verifyFn rent proof extData eo1 eo2 rk fk st
  · exact transact_error_public_amount h zeros verifyFn rent proof extData eo1 eo2 rk fk st
  · intro e
    exact transact_error_validate h zeros verifyFn rent proof extData eo1 eo2 rk fk st e
  · exact transact_error_verify h zeros verifyFn rent proof extData eo1 eo2 rk fk st
  · intro hv t hTX
    obtain ⟨-, -, -, -, -, -, hvt, -⟩ :=
      transact_ok_inversion h zeros verifyFn rent proof extData eo1 eo2 rk fk st t hTX
    rw [hvt] at hv
    cases hv
  · intro t hTX
    obtain ⟨hn, -, -, -, -, -, hvt, hrest⟩ :=
      transact_ok_inversion h zeros verifyFn rent proof extData eo1 eo2 rk fk st t hTX
    obtain ⟨p1, s1, r1, p2, f2, q1, t1, q2, t2, -, -, -, -, ht⟩ := hrest
    subst ht
    refine ⟨hvt, hn, ?_, ?_⟩ <;> simp

/-- C4: given fresh PDAs and a known root, `transact` fails with
`ExtDataHashMismatch` exactly when the little-endian field interpretation
of `H_ext = SHA-256(borsh(ext_data_full))` differs from the big-endian
field interpretation of `proof.ext_data_hash` — a field-element
comparison, not a byte comparison — where the Borsh serialization is the
concatenation of the fields in their exact declaration order with
u32-length-prefixed byte blobs. -/
theorem c4_ext_data_hash_binding (h : Bytes → Bytes → Bytes) (zeros : Nat → Bytes)
    (verifyFn : Proof → Bool) (rent : Nat) (proof : Proof) (extData : ExtDataMinified)
    (eo1 eo2 rk fk : Bytes) (st : TransactState)
    (hn : nullifiersFresh proof st) (hc : commitmentsFresh proof st)
    (hroot : is_known_root st.tree proof.root = true) :
    (transact h zeros verifyFn rent proof extData eo1 eo2 rk fk st =
        .error .ExtDataHashMismatch ↔
      fr_from_le (calculate_complete_ext_data_hash rk extData.extAmount eo1 eo2 extData.fee fk
        SOL_ADDRESS) ≠ fr_from_be proof.extDataHash) ∧
    calculate_complete_ext_data_hash rk extData.extAmount eo1 eo2 extData.fee fk SOL_ADDRESS =
      sha256 (rk ++ i64le extData.extAmount ++ u32le eo1.length ++ eo1 ++ u32le eo2.length ++
        eo2 ++ u64le extData.fee ++ fk ++ SOL_ADDRESS) := by
  refine ⟨⟨?_, ?_⟩, rfl⟩
  · exact transact_EDHM_hash h zeros verifyFn rent proof extData eo1 eo2 rk fk st
  · exact transact_error_hash h zeros verifyFn rent proof extData eo1 eo2 rk fk st hn hc hroot

/-- C7: a committed deposit (`ext_amount > 0`) with a positive fee moves
`ext_amount` lamports from the signer into the pool and pays the fee out
of the pool to the fee recipient, so the pool's net change is exactly
`ext_amount − fee` and the recipient account is untouched; the fee debit
required the pool (after the deposit arrived) to hold `fee + rent`; and
with every earlier gate passing, an underfunded pool makes the call fail
with `InsufficientFundsForFee`. -/
theorem c7_deposit_fee_flow (h : Bytes → Bytes → Bytes) (zeros : Nat → Bytes)
    (verifyFn : Proof → Bool) (rent : Nat) (proof : Proof) (extData : ExtDataMinified)
    (eo1 eo2 rk fk : Bytes) (st : TransactState) :
    (∀ t, transact h zeros verifyFn rent proof extData eo1 eo2 rk fk st = .ok t →
      0 < extData.extAmount → 0 < extData.fee →
      t.poolBalance + extData.fee = st.poolBalance + extData.extAmount.toNat ∧
      t.feeRecipientBalance = st.feeRecipientBalance + extData.fee ∧
      t.signerBalance = st.signerBalance - extData.extAmount.toNat ∧
      t.recipientBalance = st.recipientBalance ∧
      extData.fee + rent ≤ st.poolBalance + extData.extAmount.toNat) ∧
    (nullifiersFresh proof st → commitmentsFresh proof st →
      is_known_root st.tree proof.root = true →
      fr_from_le (calculate_complete_ext_data_hash rk extData.extAmount eo1 eo2 extData.fee fk
        SOL_ADDRESS) = fr_from_be proof.extDataHash →
      check_public_amount extData.extAmount extData.fee proof.publicAmount = true →
      validate_fee extData.extAmount extData.fee st.depositFeeRate st.withdrawalFeeRate
        st.feeErrorMargin = .ok () →
      verifyFn proof = true →
      0 < extData.extAmount →
      extData.extAmount.toNat ≤ st.tree.maxDepositAmount →
      extData.extAmount.toNat ≤ st.signerBalance →
      0 < extData.fee →
      extData.fee + rent < 2 ^ 64 →
      st.poolBalance + extData.extAmount.toNat < extData.fee + rent →
      transact h zeros verifyFn rent proof extData eo1 eo2 rk fk st =
        .error .InsufficientFundsForFee) := by
  constructor
  · intro t hTX hpos hfee
    obtain ⟨-, -, -, -, -, -, -, hrest⟩ :=
      transact_ok_inversion h zeros verifyFn rent proof extData eo1 eo2 rk fk st t hTX
    obtain ⟨pool1, signer1, recipient1, pool2, feeRecipient2, q1, t1, q2, t2, hmv, hpf, -, -,
      ht⟩ := hrest
    obtain ⟨hl, hsig, hp1, hs1, hr1⟩ :=
      processValueMovement_ok_deposit rent extData.extAmount extData.fee
        st.tree.maxDepositAmount st.poolBalance st.signerBalance st.recipientBalance
        pool1 signer1 recipient1 hpos hmv
    obtain ⟨hpool, hp2, hf2⟩ :=
      processFee_ok_pos rent extData.extAmount extData.fee pool1 st.feeRecipientBalance
        pool2 feeRecipient2 hfee (by omega) hpf
    subst ht
    refine ⟨?_, ?_, ?_, ?_, ?_⟩
    · show pool2 + extData.fee = st.poolBalance + extData.extAmount.toNat
      omega
    · show feeRecipient2 = st.feeRecipientBalance + extData.fee
      exact hf2
    · show signer1 = st.signerBalance - extData.extAmount.toNat
      exact hs1
    · show recipient1 = st.recipientBalance
      exact hr1
    · omega
  · intro hnf hc hroot heq hpub hval hv hpos hl hsig hfee hsum hshort
    unfold commitmentsFresh at hc
    unfold transact
    rw [if_neg ((nullifiersFresh_iff proof st).mp hnf), if_neg hc,
      if_neg (by simp [hroot]), if_neg (by simp [heq]), if_neg (by simp [hpub]), hval,
      if_neg (by simp [hv]),
      processValueMovement_deposit_eq rent extData.extAmount extData.fee
        st.tree.maxDepositAmount st.poolBalance st.signerBalance st.recipientBalance hpos hl
        hsig]
    simp only [processFee_shortfall rent extData.extAmount extData.fee
      (st.poolBalance + extData.extAmount.toNat) st.feeRecipientBalance hfee (by omega) hsum
      hshort]

/-! ### Concrete fixtures for the `transact` witnesses -/

/-- Witness recipient key. -/
def rkW : Bytes := [3]

/-- Witness fee-recipient key. -/
def fkW : Bytes := [4]

/-- Witness minified external data: a deposit of 100 with fee 10. -/
def extW : ExtDataMinified := { extAmount := 100, fee := 10 }

/-- The ext-data digest of the witness call. -/
def hashW : Bytes := calculate_complete_ext_data_hash rkW extW.extAmount [] [] extW.fee fkW
  SOL_ADDRESS

/-- Witness proof whose public fields satisfy every pure gate: the root is
the fresh tree's initial root, the ext-data hash field is the byte
reversal of the little-endian digest (hence equal as a field element),
and the public amount is the big-endian encoding of `100 − 10`. -/
def proofOkW : Proof :=
  { proofA := []
    proofB := []
    proofC := []
    root := [1002]
    publicAmount := List.replicate 31 0 ++ [90]
    extDataHash := hashW.reverse
    inputNullifier0 := [11]
    inputNullifier1 := [12]
    outputCommitment0 := [21]
    outputCommitment1 := [22] }

/-- Witness proof with an unknown root. -/
def proofBadRootW : Proof := { proofOkW with root := [7] }

/-- Witness durable state: a funded pool and signer, empty marker ledgers,
zero fee rates, and a small fresh tree with a raised deposit limit. -/
def stW : TransactState :=
  { tree := { freshTree zW 2 3 with maxDepositAmount := 1000000 }
    poolBalance := 1000000
    signerBalance := 1000000
    recipientBalance := 0
    feeRecipientBalance := 0
    nullifiers := []
    commitments := []
    depositFeeRate := 0
    withdrawalFeeRate := 0
    feeErrorMargin := 0 }

/-- Witness state whose pool cannot cover the fee plus the rent reserve
after the deposit arrives. -/
def stPoorW : TransactState := { stW with poolBalance := 0, signerBalance := 1000 }

set_option maxRecDepth 1000000 in
/-- Witness for C2: on a state with fresh markers and an unknown root the
call fails with `UnknownRoot`, via `c2_transact_order_atomicity`. -/
theorem c2_transact_order_atomicity_witness :
    transact hW zW (fun _ => true) 0 proofBadRootW extW [] [] rkW fkW stW =
      .error .UnknownRoot :=
  (c2_transact_order_atomicity hW zW (fun _ => true) 0 proofBadRootW extW [] [] rkW fkW
    stW).2.1 (by decide) (by decide) (by decide)

set_option maxRecDepth 1000000 in
/-- Witness for C4: on the funded state with a known root, the hash gate
of the witness call is settled by the field-element comparison, via
`c4_ext_data_hash_binding`. -/
theorem c4_ext_data_hash_binding_witness :
    (transact hW zW (fun _ => true) 0 proofOkW extW [] [] rkW fkW stW =
        .error .ExtDataHashMismatch ↔
      fr_from_le (calculate_complete_ext_data_hash rkW extW.extAmount [] [] extW.fee fkW
        SOL_ADDRESS) ≠ fr_from_be proofOkW.extDataHash) ∧
    calculate_complete_ext_data_hash rkW extW.extAmount [] [] extW.fee fkW SOL_ADDRESS =
      sha256 (rkW ++ i64le extW.extAmount ++ u32le (List.length ([] : Bytes)) ++ [] ++
        u32le (List.length ([] : Bytes)) ++ [] ++ u64le extW.fee ++ fkW ++ SOL_ADDRESS) :=
  c4_ext_data_hash_binding hW zW (fun _ => true) 0 proofOkW extW [] [] rkW fkW stW
    (by decide) (by decide) (by decide)

set_option maxRecDepth 1000000 in
/-- Witness for C7: the committed witness deposit moves `100` from the
signer into the pool and pays the fee `10` from the pool (net pool gain
`90`), and on the underfunded state the same pipeline stops with
`InsufficientFundsForFee`, via `c7_deposit_fee_flow`. -/
theorem c7_deposit_fee_flow_witness :
    ((resultingState (transact hW zW (fun _ => true) 0 proofOkW extW [] [] rkW fkW stW)
        stW).poolBalance + extW.fee = stW.poolBalance + extW.extAmount.toNat ∧
      (resultingState (transact hW zW (fun _ => true) 0 proofOkW extW [] [] rkW fkW stW)
        stW).feeRecipientBalance = stW.feeRecipientBalance + extW.fee ∧
      (resultingState (transact hW zW (fun _ => true) 0 proofOkW extW [] [] rkW fkW stW)
        stW).signerBalance = stW.signerBalance - extW.extAmount.toNat ∧
      (resultingState (transact hW zW (fun _ => true) 0 proofOkW extW [] [] rkW fkW stW)
        stW).recipientBalance = stW.recipientBalance ∧
      extW.fee + 0 ≤ stW.poolBalance + extW.extAmount.toNat) ∧
    transact hW zW (fun _ => true) 1000 proofOkW extW [] [] rkW fkW stPoorW =
      .error .InsufficientFundsForFee :=
  ⟨(c7_deposit_fee_flow hW zW (fun _ => true) 0 proofOkW extW [] [] rkW fkW stW).1
      (resultingState (transact hW zW (fun _ => true) 0 proofOkW extW [] [] rkW fkW stW) stW)
      (by decide) (by decide) (by decide),
   (c7_deposit_fee_flow hW zW (fun _ => true) 1000 proofOkW extW [] [] rkW fkW stPoorW).2
      (by decide) (by decide) (by decide) (by decide) (by decide) (by decide) (by decide)
      (by decide) (by decide) (by decide) (by decide) (by decide) (by decide)⟩

end Zkcash
